import Mathlib

/-!
Verification development for the usd-cad-tracker repository.

Two artifacts are embedded:
* the LifeRhythm agent (`liferhythm-agent/agent.js`): the date-context
  builder `formatDateContext`, the MCP connection environment construction
  from `connect()`, `disconnect()`, `_callTool`, and the agentic loop
  `process()`;
* the browser widget (`app.js`): `updateChart` and its bounded history.

Modelling conventions:
* A JS `Date` instant is modelled by its UTC day number (days since
  1970-01-01, which was a Thursday); the runtime timezone is taken to be
  UTC, so `getDay()` and `toISOString()` agree on the calendar date.
* Structured JSON values (tool inputs, tool results) are modelled as opaque
  `String` tokens; `JSON.stringify` on such an opaque token is modelled as
  the identity `jsonStringify`, since no verified property inspects the
  serialized form.
* The external decision service (`anthropic.messages.create`) is a
  parameter `service : Request → Response`; the external MCP peer
  (`mcpClient.callTool`) is a parameter `peer : String → String → Except
  String String`, whose `Except.error` models a rejected RPC call.
* Thrown JS `Error`s become `Except.error` carrying an `AgentError`; the
  `AgentError.message` function reproduces the JS error message strings.
* The loop is instrumented: besides the returned value it records the
  number of decision-service calls, the action log accumulated so far
  (visible even when the call fails), and the sequence of invocations
  actually forwarded to the MCP peer.
-/

namespace LifeRhythm

/-! ### Date context builder (`formatDateContext`) -/

/-- Weekday names indexed Sunday = 0 .. Saturday = 6, as in the source. -/
def weekdays : List String :=
  ["Sunday", "Monday", "Tuesday", "Wednesday", "Thursday", "Friday", "Saturday"]

/-- English month names, used to model `toLocaleDateString` (en-CA, long). -/
def monthNames : List String :=
  ["January", "February", "March", "April", "May", "June", "July",
   "August", "September", "October", "November", "December"]

/-- `Date.prototype.getDay()` on the UTC day number: 1970-01-01 is a
Thursday (index 4). -/
def getDay (d : Nat) : Nat := (d + 4) % 7

/-- Gregorian civil date (year, month, day) from days since 1970-01-01
(Hinnant civil-from-days, specialised to nonnegative day numbers). -/
def civilFromDays (days : Nat) : Nat × Nat × Nat :=
  let z := days + 719468
  let era := z / 146097
  let doe := z % 146097
  let yoe := (doe - doe / 1460 + doe / 36524 - doe / 146096) / 365
  let y := yoe + era * 400
  let doy := doe - (365 * yoe + yoe / 4 - yoe / 100)
  let mp := (5 * doy + 2) / 153
  let dd := doy - (153 * mp + 2) / 5 + 1
  let m := if mp < 10 then mp + 3 else mp - 9
  (if m ≤ 2 then y + 1 else y, m, dd)

/-- Zero-pad a number to two digits. -/
def pad2 (n : Nat) : String := if n < 10 then "0" ++ toString n else toString n

/-- The `date.toISOString().split ... [0]` step: the ISO `YYYY-MM-DD` date. -/
def dateToISO (days : Nat) : String :=
  let c := civilFromDays days
  toString c.1 ++ "-" ++ pad2 c.2.1 ++ "-" ++ pad2 c.2.2

/-- Weekday name for a weekday index. -/
def weekdayName (idx : Nat) : String := weekdays.getD idx ""

/-- The offset `(todayIdx - idx + 7) % 7` computed in the source with JS
number arithmetic, i.e. over the integers. -/
def weekdayOffset (d : Nat) (idx : Nat) : Nat :=
  Int.toNat (((getDay d : Int) - (idx : Int) + 7) % 7)

/-- The `recentWeekdays` array from `formatDateContext`: for each weekday
name (with its index), the most recent date on or before `d` falling on
that weekday, rendered as `Name: YYYY-MM-DD`. -/
def recentWeekdays (d : Nat) : List String :=
  (List.enum weekdays).map fun p =>
    p.2 ++ ": " ++ dateToISO (d - weekdayOffset d p.1)

/-- `formatDateContext(date)` from the source: the delimited date-context
block, joined with newlines. -/
def formatDateContext (d : Nat) : String :=
  let iso := dateToISO d
  let weekday := weekdayName (getDay d)
  let c := civilFromDays d
  let readable :=
    weekday ++ ", " ++ monthNames.getD (c.2.1 - 1) "" ++ " " ++
      toString c.2.2 ++ ", " ++ toString c.1
  String.intercalate "\n"
    (["[DATE CONTEXT]",
      "Today is " ++ readable ++ " (" ++ iso ++ ").",
      "Recent dates for reference:"]
      ++ (recentWeekdays d).map (fun s => "  " ++ s)
      ++ ["[/DATE CONTEXT]"])

/-! ### Agent data model -/

/-- A tool descriptor as cached on the agent after `connect()`. -/
structure ToolDescriptor where
  name : String
  description : String
  input_schema : String
deriving DecidableEq, Repr

/-- The `LifeRhythmAgent` instance fields (the external `anthropic` client
is a parameter of `process`, not a stored value we reason about). The MCP
client object is opaque: only null/non-null matters. -/
structure Agent where
  mcpServerPath : String
  sheetId : String
  mcpClient : Option Unit
  tools : List ToolDescriptor
deriving DecidableEq, Repr

/-- A content block of a decision-service response: tagged `text` or
`tool_use` (id, name, structured input as an opaque token). -/
inductive Block where
  | text (s : String)
  | toolUse (id : String) (name : String) (input : String)
deriving DecidableEq, Repr

/-- A decision-service response: stop reason plus ordered content blocks. -/
structure Response where
  stop_reason : String
  content : List Block
deriving DecidableEq, Repr

/-- A tool-invocation request extracted from a `tool_use` block. -/
structure ToolUse where
  id : String
  name : String
  input : String
deriving DecidableEq, Repr

/-- The `textBlocks` filter: content blocks tagged `text`, projected to
their text. -/
def textsOf (r : Response) : List String :=
  r.content.filterMap fun b =>
    match b with
    | .text s => some s
    | .toolUse _ _ _ => none

/-- The `toolUseBlocks` filter: content blocks tagged `tool_use`. -/
def toolUsesOf (r : Response) : List ToolUse :=
  r.content.filterMap fun b =>
    match b with
    | .text _ => none
    | .toolUse i n inp => some ⟨i, n, inp⟩

/-- The loop exit test from the source: stop reason equals `end_turn`, or
`toolUseBlocks.length === 0`. -/
def isTerminal (r : Response) : Bool :=
  r.stop_reason == "end_turn" || (toolUsesOf r).length == 0

/-- JS `String.prototype.trim()`: strip leading and trailing whitespace
(kernel-executable, unlike `String.trim`). -/
def jsTrim (s : String) : String :=
  ⟨((s.data.dropWhile Char.isWhitespace).reverse.dropWhile
      Char.isWhitespace).reverse⟩

/-- The final text of a terminal response: all text segments joined with
no separator, then trimmed. -/
def finalText (r : Response) : String :=
  jsTrim (String.join (textsOf r))

/-- A `tool_result` entry fed back to the decision service. -/
structure ToolResult where
  tool_use_id : String
  content : String
deriving DecidableEq, Repr

/-- Message content: plain text (user), the raw response blocks
(assistant) or a batch of tool results (user). -/
inductive MessageContent where
  | text (s : String)
  | blocks (bs : List Block)
  | toolResults (rs : List ToolResult)
deriving DecidableEq, Repr

/-- A conversation message. -/
structure Message where
  role : String
  content : MessageContent
deriving DecidableEq, Repr

/-- One request to the decision service, as assembled by the loop. -/
structure Request where
  model : String
  max_tokens : Nat
  system : String
  tools : List ToolDescriptor
  messages : List Message
deriving Repr

/-- An action-log record `{tool, input, result}`. -/
structure Action where
  tool : String
  input : String
  result : String
deriving DecidableEq, Repr

/-- The projection of an action to the (name, arguments) pair that was
sent to the peer. -/
def Action.sig (a : Action) : String × String := (a.tool, a.input)

/-- The errors `process()` can fail with. -/
inductive AgentError where
  | notConnected
  | maxTurnsExceeded (cap : Nat)
  | toolInvocation (e : String)
deriving DecidableEq, Repr

/-- The JS error message attached to each failure. -/
def AgentError.message : AgentError → String
  | .notConnected => "Not connected to MCP server. Call connect() first."
  | .maxTurnsExceeded cap =>
      "Agent exceeded maximum turns (" ++ toString cap ++
        "). Aborting to prevent runaway tool calls."
  | .toolInvocation e => e

/-- `JSON.stringify` on an opaque structured-value token (modelled as the
identity, see the header). -/
def jsonStringify (s : String) : String := s

/-- `MAX_TURNS` from the source. -/
def MAX_TURNS : Nat := 10

/-- The fixed system instruction (its literal text is irrelevant to every
verified property, so it is abbreviated here). -/
def SYSTEM_PROMPT : String := "You are the LifeRhythm assistant."

/-! ### Tool bridge (`_callTool`) and the tool-execution phase -/

/-- `_callTool(toolName, toolInput)`: fails with the not-connected error
when `mcpClient` is null, otherwise forwards the call to the peer and
propagates its result or its error verbatim. Besides the agent (threaded
unchanged, as the source never assigns to `this`) it reports the list of
invocations actually forwarded to the peer. -/
def callToolS (a : Agent) (peer : String → String → Except String String)
    (name input : String) :
    Agent × List (String × String) × Except AgentError String :=
  match a.mcpClient with
  | none => (a, [], .error .notConnected)
  | some _ =>
    match peer name input with
    | .ok r => (a, [(name, input)], .ok r)
    | .error e => (a, [(name, input)], .error (.toolInvocation e))

/-- Output of one round of tool execution. -/
structure ExecOut where
  agent : Agent
  actions : List Action
  results : List ToolResult
  calls : List (String × String)
  err : Option AgentError
deriving Repr

/-- The `for (const toolUse of toolUseBlocks)` body: invoke each request
in order; on success append `{tool, input, result}` to the action log and
a `tool_result` entry; a thrown error aborts the remainder of the round
(nothing further is pushed) and surfaces in `err`. -/
def execTools (a : Agent) (peer : String → String → Except String String) :
    List ToolUse → ExecOut
  | [] => ⟨a, [], [], [], none⟩
  | tu :: rest =>
    match callToolS a peer tu.name tu.input with
    | (a1, cs, .error e) => ⟨a1, [], [], cs, some e⟩
    | (a1, cs, .ok r) =>
      let eo := execTools a1 peer rest
      ⟨eo.agent, ⟨tu.name, tu.input, r⟩ :: eo.actions,
        ⟨tu.id, jsonStringify r⟩ :: eo.results, cs ++ eo.calls, eo.err⟩

/-! ### The orchestration loop (`process`) -/

/-- Instrumented outcome of a `process()` call: the agent after the call,
the returned value or thrown error, the number of decision-service
invocations, the action log accumulated (visible even on failure), and the
invocations forwarded to the MCP peer. -/
structure LoopTrace where
  agent : Agent
  result : Except AgentError (String × List Action)
  serviceCalls : Nat
  log : List Action
  toolCalls : List (String × String)
deriving Repr

/-- The `while (turns < MAX_TURNS)` loop, with fuel equal to the number of
remaining turns: call the decision service; if the response is terminal
return the trimmed joined text with the action log; otherwise push the
assistant message, execute the tool calls in order, push the tool results
as one user message, and continue. Exhausted fuel models reaching
`turns === MAX_TURNS` and throws the max-turns error. -/
def agentLoop (peer : String → String → Except String String)
    (service : Request → Response) :
    Agent → Nat → List Message → List Action → Nat →
      List (String × String) → LoopTrace
  | a, 0, _msgs, acts, calls, tcalls =>
      ⟨a, .error (.maxTurnsExceeded MAX_TURNS), calls, acts, tcalls⟩
  | a, fuel + 1, msgs, acts, calls, tcalls =>
      let response := service ⟨"claude-opus-4-6", 4096, SYSTEM_PROMPT, a.tools, msgs⟩
      if isTerminal response then
        ⟨a, .ok (finalText response, acts), calls + 1, acts, tcalls⟩
      else
        let msgs1 := msgs ++ [⟨"assistant", .blocks response.content⟩]
        let eo := execTools a peer (toolUsesOf response)
        match eo.err with
        | some e =>
            ⟨eo.agent, .error e, calls + 1, acts ++ eo.actions,
              tcalls ++ eo.calls⟩
        | none =>
            agentLoop peer service eo.agent fuel
              (msgs1 ++ [⟨"user", .toolResults eo.results⟩])
              (acts ++ eo.actions) (calls + 1) (tcalls ++ eo.calls)

/-- The initial message list of `process(input, now)`: one user message
holding the date context, a blank line, and the raw input. -/
def initialMessages (input : String) (now : Nat) : List Message :=
  [⟨"user", .text (formatDateContext now ++ "\n\n" ++ input)⟩]

/-- The first request `process` sends to the decision service. -/
def initialRequest (a : Agent) (input : String) (now : Nat) : Request :=
  ⟨"claude-opus-4-6", 4096, SYSTEM_PROMPT, a.tools, initialMessages input now⟩

/-- `process(input, now)`, instrumented (see `LoopTrace`). -/
def process (a : Agent) (peer : String → String → Except String String)
    (service : Request → Response) (input : String) (now : Nat) : LoopTrace :=
  agentLoop peer service a MAX_TURNS (initialMessages input now) [] 0 []

/-! ### `connect()` environment construction and `disconnect()` -/

/-- The fixed allow-list of environment keys passed to the MCP
subprocess. -/
def mcpEnvAllowList : List String :=
  ["PATH", "HOME", "NODE_ENV", "LIFERHYTHM_SHEET_ID",
   "GOOGLE_APPLICATION_CREDENTIALS", "GOOGLE_SERVICE_ACCOUNT_EMAIL",
   "GOOGLE_PRIVATE_KEY"]

/-- JS `x || d` on an optional string: the default replaces both an
undefined and an empty (falsy) value. -/
def jsOr (x : Option String) (d : String) : String :=
  match x with
  | none => d
  | some v => if v = "" then d else v

/-- The `mcpEnv` object built in `connect()`, after the loop that deletes
keys whose value is undefined. The ambient `process.env` is a function
from names to optional values. -/
def buildMcpEnv (ambient : String → Option String) (sheetId : String) :
    List (String × String) :=
  ([("PATH", ambient "PATH"),
    ("HOME", ambient "HOME"),
    ("NODE_ENV", some (jsOr (ambient "NODE_ENV") "production")),
    ("LIFERHYTHM_SHEET_ID", some sheetId),
    ("GOOGLE_APPLICATION_CREDENTIALS", ambient "GOOGLE_APPLICATION_CREDENTIALS"),
    ("GOOGLE_SERVICE_ACCOUNT_EMAIL", ambient "GOOGLE_SERVICE_ACCOUNT_EMAIL"),
    ("GOOGLE_PRIVATE_KEY", ambient "GOOGLE_PRIVATE_KEY")]).filterMap
    fun kv => kv.2.map fun v => (kv.1, v)

/-- `disconnect()`: close the client if one exists and null the field; a
no-op otherwise. The boolean reports whether `close()` was called. -/
def disconnect (a : Agent) : Agent × Bool :=
  match a.mcpClient with
  | some _ => ({ a with mcpClient := none }, true)
  | none => (a, false)

end LifeRhythm

namespace Widget

/-! ### Widget chart history (`updateChart` in `app.js`) -/

/-- One point of `historicalData`. The rate is a JS number on which
`updateChart` performs no arithmetic, modelled opaquely as `Int`. -/
structure DataPoint where
  time : String
  rate : Int
deriving DecidableEq, Repr

/-- The chart fields `updateChart` writes: `data.labels` and
`data.datasets[0].data`. -/
structure ChartState where
  labels : List String
  data0 : List Int
deriving DecidableEq, Repr

/-- The module-level widget state touched by `updateChart`. -/
structure WidgetState where
  currentRate : Int
  historicalData : List DataPoint
  chart : ChartState
deriving DecidableEq, Repr

/-- `updateChart()`: push the new point (current time label, current
rate); if the history now exceeds 20 points, shift off the oldest; mirror
times and rates into the chart. The time label (`toLocaleTimeString` of
the clock) is an explicit parameter. -/
def updateChart (timeLabel : String) (s : WidgetState) : WidgetState :=
  let hd0 := s.historicalData ++ [⟨timeLabel, s.currentRate⟩]
  let hd := if 20 < hd0.length then hd0.tail else hd0
  { s with historicalData := hd,
           chart := ⟨hd.map DataPoint.time, hd.map DataPoint.rate⟩ }

end Widget

namespace LifeRhythm

/-! ### Lemmas on the date context builder -/

/-- `recentWeekdays` unfolded to its seven entries. -/
theorem recentWeekdays_eq (d : Nat) :
    recentWeekdays d =
      ["Sunday" ++ ": " ++ dateToISO (d - weekdayOffset d 0),
       "Monday" ++ ": " ++ dateToISO (d - weekdayOffset d 1),
       "Tuesday" ++ ": " ++ dateToISO (d - weekdayOffset d 2),
       "Wednesday" ++ ": " ++ dateToISO (d - weekdayOffset d 3),
       "Thursday" ++ ": " ++ dateToISO (d - weekdayOffset d 4),
       "Friday" ++ ": " ++ dateToISO (d - weekdayOffset d 5),
       "Saturday" ++ ": " ++ dateToISO (d - weekdayOffset d 6)] := rfl

/-- The weekday offset is always between 0 and 6. -/
theorem weekdayOffset_le_six (d idx : Nat) : weekdayOffset d idx ≤ 6 := by
  unfold weekdayOffset
  have h1 := Int.emod_nonneg ((getDay d : Int) - (idx : Int) + 7)
    (show (7 : Int) ≠ 0 by norm_num)
  have h2 := Int.emod_lt_of_pos ((getDay d : Int) - (idx : Int) + 7)
    (show (0 : Int) < 7 by norm_num)
  omega

set_option maxRecDepth 8192

/-- The full date-context output for UTC day 20502 (2026-02-18, a
Wednesday), matching the reference tests. -/
theorem formatDateContext_20502 :
    formatDateContext 20502 = "[DATE CONTEXT]\nToday is Wednesday, February 18, 2026 (2026-02-18).\nRecent dates for reference:\n  Sunday: 2026-02-15\n  Monday: 2026-02-16\n  Tuesday: 2026-02-17\n  Wednesday: 2026-02-18\n  Thursday: 2026-02-12\n  Friday: 2026-02-13\n  Saturday: 2026-02-14\n[/DATE CONTEXT]" := by
  rfl

/-- The 2026-02-18 output splits around its Monday line. -/
theorem formatDateContext_20502_monday :
    formatDateContext 20502 =
      "[DATE CONTEXT]\nToday is Wednesday, February 18, 2026 (2026-02-18).\nRecent dates for reference:\n  Sunday: 2026-02-15\n  " ++
        ("Monday: 2026-02-16" ++
          "\n  Tuesday: 2026-02-17\n  Wednesday: 2026-02-18\n  Thursday: 2026-02-12\n  Friday: 2026-02-13\n  Saturday: 2026-02-14\n[/DATE CONTEXT]") := by
  rw [formatDateContext_20502]; rfl

/-- The 2026-02-18 output splits around its Wednesday line. -/
theorem formatDateContext_20502_wednesday :
    formatDateContext 20502 =
      "[DATE CONTEXT]\nToday is Wednesday, February 18, 2026 (2026-02-18).\nRecent dates for reference:\n  Sunday: 2026-02-15\n  Monday: 2026-02-16\n  Tuesday: 2026-02-17\n  " ++
        ("Wednesday: 2026-02-18" ++
          "\n  Thursday: 2026-02-12\n  Friday: 2026-02-13\n  Saturday: 2026-02-14\n[/DATE CONTEXT]") := by
  rw [formatDateContext_20502]; rfl

end LifeRhythm

open LifeRhythm Widget

set_option maxRecDepth 8192

/-- C4: for every reference instant, `formatDateContext` produces exactly 7
weekday lines in fixed Sunday..Saturday order; the line for weekday `idx`
shows the date `now - ((todayIdx - idx + 7) mod 7)` days, so each shown
date is on or before the reference date and within 6 days of it, and the
reference weekday itself gets offset 0; concretely the output for
2026-02-18 (UTC day number 20502) contains the lines `Monday: 2026-02-16`
and `Wednesday: 2026-02-18`. -/
theorem formatDateContext_weekday_lines (d : Nat) :
    (recentWeekdays d).length = 7 ∧
    recentWeekdays d =
      [weekdayName 0 ++ ": " ++ dateToISO (d - weekdayOffset d 0),
       weekdayName 1 ++ ": " ++ dateToISO (d - weekdayOffset d 1),
       weekdayName 2 ++ ": " ++ dateToISO (d - weekdayOffset d 2),
       weekdayName 3 ++ ": " ++ dateToISO (d - weekdayOffset d 3),
       weekdayName 4 ++ ": " ++ dateToISO (d - weekdayOffset d 4),
       weekdayName 5 ++ ": " ++ dateToISO (d - weekdayOffset d 5),
       weekdayName 6 ++ ": " ++ dateToISO (d - weekdayOffset d 6)] ∧
    (∀ idx, d - weekdayOffset d idx ≤ d ∧ d - (d - weekdayOffset d idx) ≤ 6) ∧
    weekdayOffset d (getDay d) = 0 ∧
    (∃ p q, formatDateContext 20502 = p ++ ("Monday: 2026-02-16" ++ q)) ∧
    (∃ p q, formatDateContext 20502 = p ++ ("Wednesday: 2026-02-18" ++ q)) := by
  refine ⟨by rw [recentWeekdays_eq]; rfl, ?_, ?_, ?_, ?_, ?_⟩
  · rw [recentWeekdays_eq]
    simp [weekdayName, weekdays]
  · intro idx
    have h6 := weekdayOffset_le_six d idx
    omega
  · unfold weekdayOffset
    omega
  · exact ⟨_, _, formatDateContext_20502_monday⟩
  · exact ⟨_, _, formatDateContext_20502_wednesday⟩

/-- C7 counterexample: with an entirely undefined ambient environment the
child environment still contains the key NODE_ENV (defaulted to
production), so a key whose ambient value is undefined is not always
removed entirely. -/
theorem buildMcpEnv_counterexample :
    (fun _ => (none : Option String)) "NODE_ENV" = none ∧
    buildMcpEnv (fun _ => none) "sheet1" =
      [("NODE_ENV", "production"), ("LIFERHYTHM_SHEET_ID", "sheet1")] ∧
    ("NODE_ENV", "production") ∈ buildMcpEnv (fun _ => none) "sheet1" := by
  refine ⟨rfl, by rfl, by decide⟩

/-- C7 (amended): the child environment only ever contains keys from the
fixed allow-list; a key other than NODE_ENV (which defaults to production)
and LIFERHYTHM_SHEET_ID (which always carries the agent sheet id) is
removed entirely when its ambient value is undefined; the full ambient
environment is never forwarded: two ambient environments agreeing on the
allow-listed keys produce the same child environment. -/
theorem buildMcpEnv_allowlist (ambient ambient2 : String → Option String)
    (sheetId : String) :
    (∀ kv ∈ buildMcpEnv ambient sheetId, kv.1 ∈ mcpEnvAllowList) ∧
    (∀ k, k ≠ "NODE_ENV" → k ≠ "LIFERHYTHM_SHEET_ID" → ambient k = none →
      ∀ v, (k, v) ∉ buildMcpEnv ambient sheetId) ∧
    ("NODE_ENV", jsOr (ambient "NODE_ENV") "production")
      ∈ buildMcpEnv ambient sheetId ∧
    ("LIFERHYTHM_SHEET_ID", sheetId) ∈ buildMcpEnv ambient sheetId ∧
    ((∀ k ∈ mcpEnvAllowList, ambient k = ambient2 k) →
      buildMcpEnv ambient sheetId = buildMcpEnv ambient2 sheetId) := by
  refine ⟨?_, ?_, ?_, ?_, ?_⟩
  · intro kv hkv
    simp only [buildMcpEnv, List.mem_filterMap, List.mem_cons,
      List.not_mem_nil, or_false] at hkv
    obtain ⟨x, hx, hfx⟩ := hkv
    rcases hx with h | h | h | h | h | h | h <;> subst h <;>
      obtain ⟨w, hw, hkv1⟩ := Option.map_eq_some'.mp hfx <;>
      subst hkv1 <;> simp [mcpEnvAllowList]
  · intro k hk1 hk2 hnone v hmem
    simp only [buildMcpEnv, List.mem_filterMap, List.mem_cons,
      List.not_mem_nil, or_false] at hmem
    obtain ⟨x, hx, hfx⟩ := hmem
    rcases hx with h | h | h | h | h | h | h <;> subst h <;>
      obtain ⟨w, hw, hkv1⟩ := Option.map_eq_some'.mp hfx <;>
      rw [Prod.mk.injEq] at hkv1 <;> obtain ⟨hkeq, hveq⟩ := hkv1 <;>
      dsimp only at hkeq hw <;>
      first
        | exact hk1 hkeq.symm
        | exact hk2 hkeq.symm
        | (subst hkeq; rw [hnone] at hw; exact Option.noConfusion hw)
  · simp [buildMcpEnv]
  · simp [buildMcpEnv]
  · intro h
    have hP := h "PATH" (by simp [mcpEnvAllowList])
    have hH := h "HOME" (by simp [mcpEnvAllowList])
    have hN := h "NODE_ENV" (by simp [mcpEnvAllowList])
    have hG1 := h "GOOGLE_APPLICATION_CREDENTIALS" (by simp [mcpEnvAllowList])
    have hG2 := h "GOOGLE_SERVICE_ACCOUNT_EMAIL" (by simp [mcpEnvAllowList])
    have hG3 := h "GOOGLE_PRIVATE_KEY" (by simp [mcpEnvAllowList])
    simp [buildMcpEnv, hP, hH, hN, hG1, hG2, hG3]

/-- Witness for C7 at a concrete ambient environment: PATH is undefined
and indeed absent from the child environment. -/
theorem buildMcpEnv_allowlist_witness :
    (fun _ => (none : Option String)) "PATH" = none ∧
    ∀ v, ("PATH", v) ∉ buildMcpEnv (fun _ => none) "sheet1" :=
  ⟨rfl, (buildMcpEnv_allowlist (fun _ => none) (fun _ => none) "sheet1").2.1
    "PATH" (by decide) (by decide) rfl⟩

/-- C8: `disconnect()` is idempotent: afterwards the client field is null;
when no connection exists it is a safe no-op (returns without calling
close and without failing); a second `disconnect()` performs no close and
leaves the same state as the first; the other agent fields are never
touched. -/
theorem disconnect_idempotent (a : Agent) :
    (disconnect a).1.mcpClient = none ∧
    (a.mcpClient = none → disconnect a = (a, false)) ∧
    disconnect (disconnect a).1 = ((disconnect a).1, false) ∧
    (disconnect (disconnect a).1).1 = (disconnect a).1 ∧
    (disconnect a).1.mcpServerPath = a.mcpServerPath ∧
    (disconnect a).1.sheetId = a.sheetId ∧
    (disconnect a).1.tools = a.tools := by
  cases h : a.mcpClient with
  | none =>
    refine ⟨?_, ?_, ?_, ?_, ?_, ?_, ?_⟩ <;> simp [disconnect, h]
  | some u =>
    refine ⟨?_, ?_, ?_, ?_, ?_, ?_, ?_⟩ <;> simp [disconnect, h]

/-- Witness for C8 on a concrete disconnected agent. -/
theorem disconnect_idempotent_witness :
    disconnect ⟨"path", "sheet", none, []⟩ = (⟨"path", "sheet", none, []⟩, false) :=
  (disconnect_idempotent ⟨"path", "sheet", none, []⟩).2.1 rfl

/-- The history written by `updateChart`, as a conditional. -/
theorem updateChart_historicalData (s : WidgetState) (t : String) :
    (updateChart t s).historicalData =
      if 20 < s.historicalData.length + 1
      then (s.historicalData ++ [(⟨t, s.currentRate⟩ : DataPoint)]).tail
      else s.historicalData ++ [(⟨t, s.currentRate⟩ : DataPoint)] := by
  simp [updateChart]

/-- One `updateChart` step preserves the 20-point bound. -/
theorem updateChart_length_le (s : WidgetState) (t : String)
    (h : s.historicalData.length ≤ 20) :
    (updateChart t s).historicalData.length ≤ 20 := by
  rw [updateChart_historicalData]
  split
  · simp
    omega
  · simp
    omega

/-- C10: after every `updateChart` call from a state satisfying the
20-point history invariant (which holds in every run started from the
initial empty history), the history still has at most 20 entries; when the
appended point would exceed 20 the oldest entry is shifted off, keeping
the remaining entries in order and always retaining the newest point; and
the chart labels and first dataset mirror the history time and rate
fields exactly. -/
theorem updateChart_bounded_history (s : WidgetState) (t : String) :
    (updateChart t s).historicalData.getLast? =
      some (⟨t, s.currentRate⟩ : DataPoint) ∧
    (updateChart t s).chart.labels =
      (updateChart t s).historicalData.map DataPoint.time ∧
    (updateChart t s).chart.data0 =
      (updateChart t s).historicalData.map DataPoint.rate ∧
    (s.historicalData.length < 20 →
      (updateChart t s).historicalData =
        s.historicalData ++ [(⟨t, s.currentRate⟩ : DataPoint)]) ∧
    (s.historicalData.length = 20 →
      (updateChart t s).historicalData =
        s.historicalData.tail ++ [(⟨t, s.currentRate⟩ : DataPoint)]) ∧
    (s.historicalData.length ≤ 20 →
      (updateChart t s).historicalData.length ≤ 20) ∧
    (∀ ts : List String, s.historicalData.length ≤ 20 →
      (ts.foldl (fun st tl => updateChart tl st) s).historicalData.length ≤ 20) := by
  refine ⟨?_, rfl, rfl, ?_, ?_, updateChart_length_le s t, ?_⟩
  · rw [updateChart_historicalData]
    split
    · next hgt =>
      cases hhd : s.historicalData with
      | nil => rw [hhd] at hgt; simp at hgt
      | cons x xs => simp
    · simp
  · intro h
    rw [updateChart_historicalData, if_neg (by omega)]
  · intro h
    rw [updateChart_historicalData, if_pos (by omega)]
    cases hhd : s.historicalData with
    | nil => rw [hhd] at h; simp at h
    | cons x xs => simp
  · intro ts
    induction ts generalizing s with
    | nil => intro h; simpa using h
    | cons tl rest ih =>
      intro h
      exact ih (updateChart tl s) (updateChart_length_le s tl h)

/-- Witness for C10 at a concrete state: a full 20-point history shifts
its oldest point and keeps the bound. -/
theorem updateChart_bounded_history_witness :
    (List.replicate 20 (⟨"t0", 1⟩ : DataPoint)).length = 20 ∧
    (updateChart "t1" ⟨2, List.replicate 20 ⟨"t0", 1⟩, ⟨[], []⟩⟩).historicalData
      = (List.replicate 20 (⟨"t0", 1⟩ : DataPoint)).tail ++ [⟨"t1", 2⟩] :=
  ⟨by decide,
    (updateChart_bounded_history ⟨2, List.replicate 20 ⟨"t0", 1⟩, ⟨[], []⟩⟩
      "t1").2.2.2.2.1 (by decide)⟩

/-! ### Lemmas on the tool bridge and the tool-execution phase -/

/-- `_callTool` never modifies the agent. -/
theorem callToolS_agent (a : Agent)
    (peer : String → String → Except String String) (n i : String) :
    (callToolS a peer n i).1 = a := by
  unfold callToolS
  cases a.mcpClient with
  | none => rfl
  | some u => cases peer n i <;> rfl

/-- One round of tool execution never modifies the agent. -/
theorem execTools_agent (a : Agent)
    (peer : String → String → Except String String) (tus : List ToolUse) :
    (execTools a peer tus).agent = a := by
  induction tus generalizing a with
  | nil => rfl
  | cons tu rest ih =>
    cases hc : a.mcpClient with
    | none => simp [execTools, callToolS, hc]
    | some u =>
      cases hp : peer tu.name tu.input with
      | error e => simp [execTools, callToolS, hc, hp]
      | ok r => simp [execTools, callToolS, hc, hp, ih]

/-- With a disconnected client, any attempted round fails immediately with
the not-connected error, forwarding nothing to the peer. -/
theorem execTools_not_connected (a : Agent)
    (peer : String → String → Except String String) (tu : ToolUse)
    (rest : List ToolUse) (hc : a.mcpClient = none) :
    execTools a peer (tu :: rest) = ⟨a, [], [], [], some .notConnected⟩ := by
  simp [execTools, callToolS, hc]

/-- A round that reports no error logged every request, in order, with the
exact requested name and arguments, called the peer exactly once per
request, and recorded only successful results. -/
theorem execTools_err_none (a : Agent)
    (peer : String → String → Except String String) (tus : List ToolUse)
    (h : (execTools a peer tus).err = none) :
    (execTools a peer tus).actions.map Action.sig =
        tus.map (fun tu => (tu.name, tu.input)) ∧
    (execTools a peer tus).calls = tus.map (fun tu => (tu.name, tu.input)) ∧
    (execTools a peer tus).actions.length = tus.length ∧
    ∀ ac ∈ (execTools a peer tus).actions,
      peer ac.tool ac.input = Except.ok ac.result := by
  induction tus generalizing a with
  | nil => simp [execTools]
  | cons tu rest ih =>
    cases hc : a.mcpClient with
    | none => simp [execTools, callToolS, hc] at h
    | some u =>
      cases hp : peer tu.name tu.input with
      | error e => simp [execTools, callToolS, hc, hp] at h
      | ok r =>
        simp only [execTools, callToolS, hc, hp] at h ⊢
        obtain ⟨h1, h2, h3, h4⟩ := ih a h
        refine ⟨?_, ?_, ?_, ?_⟩
        · simp [Action.sig, h1]
        · simp [h2]
        · simp [h3]
        · intro ac hac
          simp only [List.mem_cons] at hac
          rcases hac with rfl | hac
          · exact hp
          · exact h4 ac hac

/-- A round that fails with a connected client and at least one request
supplied a peer-ok hypothesis cannot fail. -/
theorem execTools_ok_of_peer_ok (a : Agent)
    (peer : String → String → Except String String) (tus : List ToolUse)
    (hc : a.mcpClient = some ())
    (hp : ∀ tu ∈ tus, ∃ r, peer tu.name tu.input = Except.ok r) :
    (execTools a peer tus).err = none := by
  induction tus generalizing a with
  | nil => rfl
  | cons tu rest ih =>
    obtain ⟨r, hr⟩ := hp tu (List.mem_cons_self tu rest)
    have hrest : ∀ tu2 ∈ rest, ∃ r2, peer tu2.name tu2.input = Except.ok r2 :=
      fun tu2 h2 => hp tu2 (List.mem_cons_of_mem tu h2)
    simp [execTools, callToolS, hc, hr, ih a hc hrest]

/-- A round that fails with a tool-invocation error does so because the
peer rejected exactly one call: that call is the last peer invocation of
the round, every earlier request succeeded and was logged, and the failed
request is not in the log. -/
theorem execTools_toolInvocation (a : Agent)
    (peer : String → String → Except String String) (tus : List ToolUse)
    (e : String)
    (h : (execTools a peer tus).err = some (.toolInvocation e)) :
    ∃ nm inp, peer nm inp = Except.error e ∧
      (execTools a peer tus).calls =
        (execTools a peer tus).actions.map Action.sig ++ [(nm, inp)] ∧
      ∀ ac ∈ (execTools a peer tus).actions,
        peer ac.tool ac.input = Except.ok ac.result := by
  induction tus generalizing a with
  | nil => simp [execTools] at h
  | cons tu rest ih =>
    cases hc : a.mcpClient with
    | none => simp [execTools, callToolS, hc] at h
    | some u =>
      cases hp : peer tu.name tu.input with
      | error e2 =>
        simp only [execTools, callToolS, hc, hp] at h ⊢
        have he : e2 = e := by
          simpa using h
        subst he
        exact ⟨tu.name, tu.input, hp, by simp, by simp⟩
      | ok r =>
        simp only [execTools, callToolS, hc, hp] at h ⊢
        obtain ⟨nm, inp, hnm, hcalls, hlog⟩ := ih a h
        refine ⟨nm, inp, hnm, ?_, ?_⟩
        · simp [hcalls, Action.sig]
        · intro ac hac
          simp only [List.mem_cons] at hac
          rcases hac with rfl | hac
          · exact hp
          · exact hlog ac hac

/-! ### Lemmas on the orchestration loop -/

/-- One unfolding of the loop at positive fuel: the terminal case. -/
theorem agentLoop_terminal_eq
    (peer : String → String → Except String String)
    (service : Request → Response) (a : Agent) (fuel : Nat)
    (msgs : List Message) (acts : List Action) (calls : Nat)
    (tcalls : List (String × String))
    (h : isTerminal
      (service ⟨"claude-opus-4-6", 4096, SYSTEM_PROMPT, a.tools, msgs⟩) = true) :
    agentLoop peer service a (fuel + 1) msgs acts calls tcalls =
      ⟨a, .ok (finalText
          (service ⟨"claude-opus-4-6", 4096, SYSTEM_PROMPT, a.tools, msgs⟩), acts),
        calls + 1, acts, tcalls⟩ := by
  simp only [agentLoop]
  rw [if_pos h]

/-- The loop never modifies the agent. -/
theorem agentLoop_agent
    (peer : String → String → Except String String)
    (service : Request → Response) (fuel : Nat) :
    ∀ (a : Agent) (msgs : List Message) (acts : List Action) (calls : Nat)
      (tcalls : List (String × String)),
      (agentLoop peer service a fuel msgs acts calls tcalls).agent = a := by
  induction fuel with
  | zero => intro a msgs acts calls tcalls; rfl
  | succ fuel ih =>
    intro a msgs acts calls tcalls
    simp only [agentLoop]
    split
    · rfl
    · split
      · next heq =>
        simpa using execTools_agent a peer _
      · next heq =>
        rw [ih]
        exact execTools_agent a peer _

/-- A successful loop returns exactly the action log it accumulated. -/
theorem agentLoop_ok_snd
    (peer : String → String → Except String String)
    (service : Request → Response) (fuel : Nat) :
    ∀ (a : Agent) (msgs : List Message) (acts : List Action) (calls : Nat)
      (tcalls : List (String × String)) (v : String × List Action),
      (agentLoop peer service a fuel msgs acts calls tcalls).result = .ok v →
      v.2 = (agentLoop peer service a fuel msgs acts calls tcalls).log := by
  induction fuel with
  | zero =>
    intro a msgs acts calls tcalls v h
    simp [agentLoop] at h
  | succ fuel ih =>
    intro a msgs acts calls tcalls v h
    simp only [agentLoop] at h ⊢
    split at h
    · next hterm =>
      simp only at h
      obtain rfl : (finalText _, acts) = v := by
        simpa using h
      rw [if_pos hterm]
    · next hterm =>
      rw [if_neg hterm]
      split at h
      · next heq => simp at h
      · next heq => exact ih _ _ _ _ _ v h

/-- A successful loop made at least one decision-service call beyond the
count it started from. -/
theorem agentLoop_ok_serviceCalls
    (peer : String → String → Except String String)
    (service : Request → Response) (fuel : Nat) :
    ∀ (a : Agent) (msgs : List Message) (acts : List Action) (calls : Nat)
      (tcalls : List (String × String)) (v : String × List Action),
      (agentLoop peer service a fuel msgs acts calls tcalls).result = .ok v →
      calls + 1 ≤ (agentLoop peer service a fuel msgs acts calls tcalls).serviceCalls := by
  induction fuel with
  | zero =>
    intro a msgs acts calls tcalls v h
    simp [agentLoop] at h
  | succ fuel ih =>
    intro a msgs acts calls tcalls v h
    simp only [agentLoop] at h ⊢
    split at h
    · next hterm =>
      rw [if_pos hterm]
    · next hterm =>
      rw [if_neg hterm]
      split at h
      · next heq => simp at h
      · next heq =>
        have := ih _ _ _ _ _ v h
        omega

/-- Invariant of a successful run: the peer-invocation trace is exactly
the action log projected to (name, arguments), and every logged action
records a successful peer result. -/
theorem agentLoop_ok_log_calls
    (peer : String → String → Except String String)
    (service : Request → Response) (fuel : Nat) :
    ∀ (a : Agent) (msgs : List Message) (acts : List Action) (calls : Nat)
      (tcalls : List (String × String)),
      tcalls = acts.map Action.sig →
      (∀ ac ∈ acts, peer ac.tool ac.input = Except.ok ac.result) →
      ∀ v, (agentLoop peer service a fuel msgs acts calls tcalls).result = .ok v →
        (agentLoop peer service a fuel msgs acts calls tcalls).toolCalls =
          (agentLoop peer service a fuel msgs acts calls tcalls).log.map Action.sig ∧
        ∀ ac ∈ (agentLoop peer service a fuel msgs acts calls tcalls).log,
          peer ac.tool ac.input = Except.ok ac.result := by
  induction fuel with
  | zero =>
    intro a msgs acts calls tcalls htc hlog v h
    simp [agentLoop] at h
  | succ fuel ih =>
    intro a msgs acts calls tcalls htc hlog v h
    simp only [agentLoop] at h ⊢
    split at h
    · next hterm =>
      rw [if_pos hterm]
      exact ⟨by simpa using htc, by simpa using hlog⟩
    · next hterm =>
      rw [if_neg hterm]
      split at h
      · next heq => simp at h
      · next heq =>
        obtain ⟨he1, he2, _, he4⟩ := execTools_err_none a peer _ heq
        refine ih _ _ _ _ _ ?_ ?_ v h
        · rw [List.map_append, htc, he1, he2]
        · intro ac hac
          rcases List.mem_append.mp hac with hac | hac
          · exact hlog ac hac
          · exact he4 ac hac

/-- Invariant of a failing run: a tool-invocation failure comes from one
peer rejection; that call is the final peer invocation, and the log holds
exactly the earlier successful invocations. -/
theorem agentLoop_toolInvocation_log
    (peer : String → String → Except String String)
    (service : Request → Response) (fuel : Nat) :
    ∀ (a : Agent) (msgs : List Message) (acts : List Action) (calls : Nat)
      (tcalls : List (String × String)),
      tcalls = acts.map Action.sig →
      (∀ ac ∈ acts, peer ac.tool ac.input = Except.ok ac.result) →
      ∀ e, (agentLoop peer service a fuel msgs acts calls tcalls).result
          = .error (.toolInvocation e) →
        ∃ nm inp, peer nm inp = Except.error e ∧
          (agentLoop peer service a fuel msgs acts calls tcalls).toolCalls =
            (agentLoop peer service a fuel msgs acts calls tcalls).log.map
              Action.sig ++ [(nm, inp)] ∧
          ∀ ac ∈ (agentLoop peer service a fuel msgs acts calls tcalls).log,
            peer ac.tool ac.input = Except.ok ac.result := by
  induction fuel with
  | zero =>
    intro a msgs acts calls tcalls htc hlog e h
    simp [agentLoop] at h
  | succ fuel ih =>
    intro a msgs acts calls tcalls htc hlog e h
    simp only [agentLoop] at h ⊢
    split at h
    · next hterm =>
      rw [if_pos hterm]
      simp at h
    · next hterm =>
      rw [if_neg hterm]
      split at h
      · next e2 heq =>
        have hE : e2 = AgentError.toolInvocation e := by simpa using h
        subst hE
        obtain ⟨nm, inp, hnm, hcalls, hlog2⟩ :=
          execTools_toolInvocation a peer _ e heq
        refine ⟨nm, inp, hnm, ?_, ?_⟩
        · dsimp only
          simp [htc, hcalls]
        · intro ac hac
          dsimp only at hac
          rcases List.mem_append.mp hac with hac | hac
          · exact hlog ac hac
          · exact hlog2 ac hac
      · next heq =>
        obtain ⟨he1, he2, _, he4⟩ := execTools_err_none a peer _ heq
        refine ih _ _ _ _ _ ?_ ?_ e h
        · rw [List.map_append, htc, he1, he2]
        · intro ac hac
          rcases List.mem_append.mp hac with hac | hac
          · exact hlog ac hac
          · exact he4 ac hac

/-- With a connected client, an always-succeeding peer and a
never-terminal decision service, the loop consumes all its fuel, making
one service call per unit of fuel, and fails with the max-turns error. -/
theorem agentLoop_max_turns
    (peer : String → String → Except String String)
    (service : Request → Response)
    (hpeer : ∀ n i, ∃ r, peer n i = Except.ok r)
    (hserv : ∀ req, isTerminal (service req) = false) (fuel : Nat) :
    ∀ (a : Agent) (msgs : List Message) (acts : List Action) (calls : Nat)
      (tcalls : List (String × String)), a.mcpClient = some () →
      (agentLoop peer service a fuel msgs acts calls tcalls).result
        = .error (.maxTurnsExceeded MAX_TURNS) ∧
      (agentLoop peer service a fuel msgs acts calls tcalls).serviceCalls
        = calls + fuel := by
  induction fuel with
  | zero =>
    intro a msgs acts calls tcalls hc
    exact ⟨rfl, rfl⟩
  | succ fuel ih =>
    intro a msgs acts calls tcalls hc
    simp only [agentLoop]
    rw [if_neg (by simp [hserv])]
    have herr := execTools_ok_of_peer_ok a peer
      (toolUsesOf (service ⟨"claude-opus-4-6", 4096, SYSTEM_PROMPT, a.tools, msgs⟩))
      hc (fun tu _ => hpeer tu.name tu.input)
    split
    · next e2 heq => rw [herr] at heq; exact Option.noConfusion heq
    · next heq =>
      have hagent := execTools_agent a peer
        (toolUsesOf (service ⟨"claude-opus-4-6", 4096, SYSTEM_PROMPT, a.tools, msgs⟩))
      rw [hagent]
      constructor
      · exact (ih a _ _ _ _ hc).1
      · rw [(ih a _ _ _ _ hc).2]
        omega

/-- C1 counterexample: a decision response whose stop reason is end_turn
but which still carries a tool-invocation request is treated as terminal
by the loop — it returns at once with an empty action log and no peer
call — so the loop does **not** return terminally exactly when the
response contains no tool-invocation requests. -/
theorem process_terminal_counterexample :
    toolUsesOf ⟨"end_turn", [Block.toolUse "tu1" "create_item" "argsA"]⟩ ≠ [] ∧
    (process ⟨"p", "s", some (), []⟩ (fun _ _ => Except.ok "res")
        (fun _ => ⟨"end_turn", [Block.toolUse "tu1" "create_item" "argsA"]⟩)
        "hello" 20502).result = .ok ("", []) ∧
    (process ⟨"p", "s", some (), []⟩ (fun _ _ => Except.ok "res")
        (fun _ => ⟨"end_turn", [Block.toolUse "tu1" "create_item" "argsA"]⟩)
        "hello" 20502).toolCalls = [] := by
  refine ⟨by decide, by rfl, by rfl⟩

/-- C1 (amended): a round of the loop returns a terminal result exactly
when the response stop reason is end_turn **or** the response contains no
tool-invocation requests; on that terminal round it returns the text
segments concatenated in order with no separator and trimmed, together
with the action log accumulated so far; and when the very first response
is terminal, `process` returns that text with an empty action log. -/
theorem process_terminal_round
    (peer : String → String → Except String String)
    (service : Request → Response) (a : Agent) (fuel : Nat)
    (msgs : List Message) (acts : List Action) (calls : Nat)
    (tcalls : List (String × String)) (input : String) (now : Nat) :
    (isTerminal (service ⟨"claude-opus-4-6", 4096, SYSTEM_PROMPT, a.tools, msgs⟩)
        = true →
      agentLoop peer service a (fuel + 1) msgs acts calls tcalls =
        ⟨a, .ok (finalText
            (service ⟨"claude-opus-4-6", 4096, SYSTEM_PROMPT, a.tools, msgs⟩),
            acts), calls + 1, acts, tcalls⟩) ∧
    (isTerminal (service ⟨"claude-opus-4-6", 4096, SYSTEM_PROMPT, a.tools, msgs⟩)
        = false →
      ∀ v, (agentLoop peer service a (fuel + 1) msgs acts calls tcalls).result
          = .ok v →
        (agentLoop peer service a (fuel + 1) msgs acts calls tcalls).serviceCalls
          ≠ calls + 1) ∧
    (isTerminal (service (initialRequest a input now)) = true →
      (process a peer service input now).result =
        .ok (finalText (service (initialRequest a input now)), [])) := by
  refine ⟨?_, ?_, ?_⟩
  · intro h
    exact agentLoop_terminal_eq peer service a fuel msgs acts calls tcalls h
  · intro hterm v hok
    simp only [agentLoop] at hok ⊢
    rw [if_neg (by simp [hterm])] at hok ⊢
    split at hok
    · next e2 heq => simp at hok
    · next heq =>
      have := agentLoop_ok_serviceCalls peer service fuel _ _ _ _ _ v hok
      omega
  · intro h
    show (agentLoop peer service a (9 + 1) (initialMessages input now) [] 0 []).result
      = _
    rw [agentLoop_terminal_eq peer service a 9 (initialMessages input now) [] 0 [] h]
    rfl

/-- Witness for C1 at a terminal-first-response run. -/
theorem process_terminal_round_witness :
    isTerminal ((fun _ => (⟨"end_turn", [Block.text " ok "]⟩ : Response))
      (initialRequest ⟨"p", "s", some (), []⟩ "hello" 20502)) = true ∧
    (process ⟨"p", "s", some (), []⟩ (fun _ _ => Except.ok "r")
        (fun _ => ⟨"end_turn", [Block.text " ok "]⟩) "hello" 20502).result =
      .ok (finalText ((fun _ => (⟨"end_turn", [Block.text " ok "]⟩ : Response))
        (initialRequest ⟨"p", "s", some (), []⟩ "hello" 20502)), []) :=
  ⟨rfl, (process_terminal_round (fun _ _ => Except.ok "r")
    (fun _ => ⟨"end_turn", [Block.text " ok "]⟩) ⟨"p", "s", some (), []⟩ 0 [] [] 0 []
    "hello" 20502).2.2 rfl⟩

/-- C2: when no decision response is ever terminal but the peer always
succeeds and the agent is connected, `process` fails with the
max-turns-exceeded error, whose message names the configured cap, and the
decision service is invoked exactly MAX_TURNS times, never more. -/
theorem process_max_turns (a : Agent)
    (peer : String → String → Except String String)
    (service : Request → Response) (input : String) (now : Nat)
    (hconn : a.mcpClient = some ())
    (hpeer : ∀ n i, ∃ r, peer n i = Except.ok r)
    (hserv : ∀ req, isTerminal (service req) = false) :
    (process a peer service input now).result =
      .error (.maxTurnsExceeded MAX_TURNS) ∧
    (process a peer service input now).serviceCalls = MAX_TURNS ∧
    ∃ p q, (AgentError.maxTurnsExceeded MAX_TURNS).message =
      p ++ (toString MAX_TURNS ++ q) := by
  have h := agentLoop_max_turns peer service hpeer hserv MAX_TURNS a
    (initialMessages input now) [] 0 [] hconn
  exact ⟨h.1, h.2, ⟨"Agent exceeded maximum turns (",
    "). Aborting to prevent runaway tool calls.", by rfl⟩⟩

/-- Witness for C2: a concrete connected run whose service always asks
for one more tool call exhausts all 10 turns. -/
theorem process_max_turns_witness :
    (⟨"p", "s", some (), []⟩ : Agent).mcpClient = some () ∧
    (process ⟨"p", "s", some (), []⟩ (fun _ _ => Except.ok "r")
        (fun _ => ⟨"tool_use", [Block.toolUse "t" "n" "i"]⟩) "x" 20502).result =
      .error (.maxTurnsExceeded MAX_TURNS) ∧
    (process ⟨"p", "s", some (), []⟩ (fun _ _ => Except.ok "r")
        (fun _ => ⟨"tool_use", [Block.toolUse "t" "n" "i"]⟩) "x" 20502).serviceCalls
      = MAX_TURNS :=
  ⟨rfl,
    (process_max_turns ⟨"p", "s", some (), []⟩ (fun _ _ => Except.ok "r")
      (fun _ => ⟨"tool_use", [Block.toolUse "t" "n" "i"]⟩) "x" 20502 rfl
      (fun _ _ => ⟨"r", rfl⟩) (fun _ => rfl)).1,
    (process_max_turns ⟨"p", "s", some (), []⟩ (fun _ _ => Except.ok "r")
      (fun _ => ⟨"tool_use", [Block.toolUse "t" "n" "i"]⟩) "x" 20502 rfl
      (fun _ _ => ⟨"r", rfl⟩) (fun _ => rfl)).2.1⟩

/-- C3: with a connected agent and a peer that answers every request, one
round executes its tool-invocation requests in the exact order received,
logging one entry per request whose tool and input equal the request name
and arguments, with exactly one peer invocation per request carrying those
exact arguments; and across a whole successful `process` run the returned
action log is the accumulated log, whose (tool, input) projection is
exactly the ordered sequence of peer invocations. -/
theorem process_action_log (a : Agent)
    (peer : String → String → Except String String) (tus : List ToolUse)
    (service : Request → Response) (input : String) (now : Nat)
    (hconn : a.mcpClient = some ())
    (hok : ∀ tu ∈ tus, ∃ r, peer tu.name tu.input = Except.ok r) :
    ((execTools a peer tus).err = none ∧
     (execTools a peer tus).actions.map Action.sig =
       tus.map (fun tu => (tu.name, tu.input)) ∧
     (execTools a peer tus).calls = tus.map (fun tu => (tu.name, tu.input)) ∧
     (execTools a peer tus).actions.length = tus.length) ∧
    (∀ v, (process a peer service input now).result = .ok v →
      v.2 = (process a peer service input now).log ∧
      (process a peer service input now).toolCalls =
        (process a peer service input now).log.map Action.sig) := by
  have herr := execTools_ok_of_peer_ok a peer tus hconn hok
  obtain ⟨h1, h2, h3, _⟩ := execTools_err_none a peer tus herr
  refine ⟨⟨herr, h1, h2, h3⟩, ?_⟩
  intro v hv
  refine ⟨agentLoop_ok_snd peer service MAX_TURNS a
    (initialMessages input now) [] 0 [] v hv, ?_⟩
  exact (agentLoop_ok_log_calls peer service MAX_TURNS a
    (initialMessages input now) [] 0 [] rfl (by simp) v hv).1

/-- Witness for C3 on a round with two concrete requests. -/
theorem process_action_log_witness :
    (⟨"p", "s", some (), []⟩ : Agent).mcpClient = some () ∧
    (execTools ⟨"p", "s", some (), []⟩ (fun _ _ => Except.ok "okr")
      [⟨"t1", "create_item", "argsA"⟩, ⟨"t2", "add_reminder", "argsB"⟩]).calls =
      [("create_item", "argsA"), ("add_reminder", "argsB")] ∧
    (execTools ⟨"p", "s", some (), []⟩ (fun _ _ => Except.ok "okr")
      [⟨"t1", "create_item", "argsA"⟩, ⟨"t2", "add_reminder", "argsB"⟩]).actions.map
        Action.sig = [("create_item", "argsA"), ("add_reminder", "argsB")] :=
  ⟨rfl,
    ((process_action_log ⟨"p", "s", some (), []⟩ (fun _ _ => Except.ok "okr")
      [⟨"t1", "create_item", "argsA"⟩, ⟨"t2", "add_reminder", "argsB"⟩]
      (fun _ => ⟨"end_turn", []⟩) "x" 20502 rfl
      (fun _ _ => ⟨"okr", rfl⟩)).1).2.2.1,
    ((process_action_log ⟨"p", "s", some (), []⟩ (fun _ _ => Except.ok "okr")
      [⟨"t1", "create_item", "argsA"⟩, ⟨"t2", "add_reminder", "argsB"⟩]
      (fun _ => ⟨"end_turn", []⟩) "x" 20502 rfl
      (fun _ _ => ⟨"okr", rfl⟩)).1).2.1⟩

/-- C5 counterexample: when the peer rejects a call, the error propagates
to the caller of `process` but the failed invocation is **not** recorded
in the action log — the log stays empty here, while the claim requires an
entry recording the error. -/
theorem process_tool_error_counterexample :
    (process ⟨"p", "s", some (), []⟩ (fun _ _ => Except.error "boom")
        (fun _ => ⟨"tool_use", [Block.toolUse "tu1" "create_item" "argsA"]⟩)
        "hi" 20502).result = .error (.toolInvocation "boom") ∧
    (process ⟨"p", "s", some (), []⟩ (fun _ _ => Except.error "boom")
        (fun _ => ⟨"tool_use", [Block.toolUse "tu1" "create_item" "argsA"]⟩)
        "hi" 20502).log = [] ∧
    (process ⟨"p", "s", some (), []⟩ (fun _ _ => Except.error "boom")
        (fun _ => ⟨"tool_use", [Block.toolUse "tu1" "create_item" "argsA"]⟩)
        "hi" 20502).toolCalls = [("create_item", "argsA")] := by
  refine ⟨by rfl, by rfl, by rfl⟩

/-- C5 (amended): when the peer rejects a specific call during a
`process` run, the peer error is propagated verbatim to the caller (the
thrown error message is the peer error itself), the rejected invocation
was the last peer call of the run and was made exactly once (no retry),
and the failed invocation is not recorded in the action log — the log
holds exactly the invocations that completed successfully before it. -/
theorem process_tool_error (a : Agent)
    (peer : String → String → Except String String)
    (service : Request → Response) (input : String) (now : Nat) (e : String)
    (h : (process a peer service input now).result = .error (.toolInvocation e)) :
    (AgentError.toolInvocation e).message = e ∧
    ∃ nm inp, peer nm inp = Except.error e ∧
      (process a peer service input now).toolCalls =
        (process a peer service input now).log.map Action.sig ++ [(nm, inp)] ∧
      ∀ ac ∈ (process a peer service input now).log,
        peer ac.tool ac.input = Except.ok ac.result :=
  ⟨rfl, agentLoop_toolInvocation_log peer service MAX_TURNS a
    (initialMessages input now) [] 0 [] rfl (by simp) e h⟩

/-- Witness for C5 at the concrete erroring run. -/
theorem process_tool_error_witness :
    (process ⟨"p", "s", some (), []⟩ (fun _ _ => Except.error "boom")
        (fun _ => ⟨"tool_use", [Block.toolUse "tu1" "create_item" "argsA"]⟩)
        "go" 20502).result = .error (.toolInvocation "boom") ∧
    ∃ nm inp, (fun _ _ => (Except.error "boom" : Except String String)) nm inp
        = Except.error "boom" ∧
      (process ⟨"p", "s", some (), []⟩ (fun _ _ => Except.error "boom")
        (fun _ => ⟨"tool_use", [Block.toolUse "tu1" "create_item" "argsA"]⟩)
        "go" 20502).toolCalls =
        (process ⟨"p", "s", some (), []⟩ (fun _ _ => Except.error "boom")
          (fun _ => ⟨"tool_use", [Block.toolUse "tu1" "create_item" "argsA"]⟩)
          "go" 20502).log.map Action.sig ++ [(nm, inp)] ∧
      ∀ ac ∈ (process ⟨"p", "s", some (), []⟩ (fun _ _ => Except.error "boom")
          (fun _ => ⟨"tool_use", [Block.toolUse "tu1" "create_item" "argsA"]⟩)
          "go" 20502).log,
        (fun _ _ => (Except.error "boom" : Except String String)) ac.tool ac.input
          = Except.ok ac.result :=
  ⟨rfl, (process_tool_error ⟨"p", "s", some (), []⟩ (fun _ _ => Except.error "boom")
    (fun _ => ⟨"tool_use", [Block.toolUse "tu1" "create_item" "argsA"]⟩)
    "go" 20502 "boom" rfl).2⟩

/-- A non-terminal round on a disconnected agent fails immediately with
the not-connected error, logging nothing and calling no peer. -/
theorem agentLoop_not_connected_step
    (peer : String → String → Except String String)
    (service : Request → Response) (a : Agent) (fuel : Nat)
    (msgs : List Message) (acts : List Action) (calls : Nat)
    (tcalls : List (String × String)) (hc : a.mcpClient = none)
    (hterm : isTerminal
      (service ⟨"claude-opus-4-6", 4096, SYSTEM_PROMPT, a.tools, msgs⟩) = false) :
    agentLoop peer service a (fuel + 1) msgs acts calls tcalls =
      ⟨a, .error .notConnected, calls + 1, acts, tcalls⟩ := by
  simp only [agentLoop]
  rw [if_neg (by simp [hterm])]
  cases htus : toolUsesOf
      (service ⟨"claude-opus-4-6", 4096, SYSTEM_PROMPT, a.tools, msgs⟩) with
  | nil =>
    exfalso
    simp [isTerminal, htus] at hterm
  | cons tu rest =>
    rw [execTools_not_connected a peer tu rest hc]
    simp

/-- C6 counterexample: `process` on an agent that never connected does
**not** always fail — when the first decision response is terminal it
returns normally. -/
theorem process_not_connected_counterexample :
    (⟨"p", "s", none, []⟩ : Agent).mcpClient = none ∧
    (process ⟨"p", "s", none, []⟩ (fun _ _ => Except.ok "r")
        (fun _ => ⟨"end_turn", [Block.text "done "]⟩) "x" 20502).result =
      .ok ("done", []) := by
  refine ⟨rfl, by rfl⟩

/-- C6 (amended): on an agent that never connected, `process` makes
exactly one decision-service call and forwards nothing to the external
peer; if that first response requests a tool invocation it fails with the
not-connected error before any call is forwarded, and otherwise it
returns normally with an empty action log. -/
theorem process_not_connected (a : Agent)
    (peer : String → String → Except String String)
    (service : Request → Response) (input : String) (now : Nat)
    (hc : a.mcpClient = none) :
    (process a peer service input now).toolCalls = [] ∧
    (process a peer service input now).log = [] ∧
    (process a peer service input now).serviceCalls = 1 ∧
    (isTerminal (service (initialRequest a input now)) = true →
      (process a peer service input now).result =
        .ok (finalText (service (initialRequest a input now)), [])) ∧
    (isTerminal (service (initialRequest a input now)) = false →
      (process a peer service input now).result = .error .notConnected) := by
  cases hterm : isTerminal (service (initialRequest a input now)) with
  | true =>
    have hp : process a peer service input now =
        ⟨a, .ok (finalText (service (initialRequest a input now)), []), 1, [], []⟩ :=
      agentLoop_terminal_eq peer service a 9 (initialMessages input now) [] 0 [] hterm
    refine ⟨by rw [hp], by rw [hp], by rw [hp], fun _ => by rw [hp], fun h2 => ?_⟩
    exact Bool.noConfusion h2
  | false =>
    have hterm2 : isTerminal
        (service ⟨"claude-opus-4-6", 4096, SYSTEM_PROMPT, a.tools,
          initialMessages input now⟩) = false := hterm
    have key : process a peer service input now =
        ⟨a, .error .notConnected, 1, [], []⟩ :=
      agentLoop_not_connected_step peer service a 9 (initialMessages input now)
        [] 0 [] hc hterm2
    refine ⟨by rw [key], by rw [key], by rw [key], fun h2 => ?_, fun _ => by rw [key]⟩
    exact Bool.noConfusion h2

/-- Witness for C6 on a concrete unconnected agent whose first response
requests a tool call. -/
theorem process_not_connected_witness :
    (⟨"p", "s", none, []⟩ : Agent).mcpClient = none ∧
    (process ⟨"p", "s", none, []⟩ (fun _ _ => Except.ok "r")
        (fun _ => ⟨"tool_use", [Block.toolUse "t" "n" "i"]⟩) "x" 20502).toolCalls
      = [] ∧
    (process ⟨"p", "s", none, []⟩ (fun _ _ => Except.ok "r")
        (fun _ => ⟨"tool_use", [Block.toolUse "t" "n" "i"]⟩) "x" 20502).result
      = .error .notConnected :=
  ⟨rfl,
    (process_not_connected ⟨"p", "s", none, []⟩ (fun _ _ => Except.ok "r")
      (fun _ => ⟨"tool_use", [Block.toolUse "t" "n" "i"]⟩) "x" 20502 rfl).1,
    (process_not_connected ⟨"p", "s", none, []⟩ (fun _ _ => Except.ok "r")
      (fun _ => ⟨"tool_use", [Block.toolUse "t" "n" "i"]⟩) "x" 20502 rfl).2.2.2.2
      rfl⟩

/-- C9: `process` never modifies the agent instance fields — the agent
coming out of the instrumented run is the one that went in, field by
field — and re-running `process` on the agent coming out of a run yields
the identical trace: the message sequence, turn counter and action log
are fresh values local to each call, so consecutive calls share no
session state. -/
theorem process_frame (a : Agent)
    (peer : String → String → Except String String)
    (service : Request → Response) (input : String) (now : Nat) :
    (process a peer service input now).agent = a ∧
    (process a peer service input now).agent.mcpServerPath = a.mcpServerPath ∧
    (process a peer service input now).agent.sheetId = a.sheetId ∧
    (process a peer service input now).agent.mcpClient = a.mcpClient ∧
    (process a peer service input now).agent.tools = a.tools ∧
    process (process a peer service input now).agent peer service input now =
      process a peer service input now := by
  have h : (process a peer service input now).agent = a :=
    agentLoop_agent peer service MAX_TURNS a (initialMessages input now) [] 0 []
  exact ⟨h, by rw [h], by rw [h], by rw [h], by rw [h], by rw [h]⟩
